import Mathlib

/-!
Verification of the collaborative-editing backend: a shallow embedding of
the OT engine (`src/services/ot_engine.rs`), the session manager
(`src/services/collaboration.rs`) and the permission-inheritance resolver
(`src/services/inheritance.rs`), with theorems settling the spec's claims.

Strings are modelled at the byte level (`List Nat`, each entry one UTF-8
byte): Rust positions are byte offsets, `String::len` is the byte count,
and slicing panics on a non-character-boundary index. A panic is `none`.
Uuids are modelled as `Nat`, timestamps as `Int`.
-/

/-- The tagged operation variant of `models/collaboration.rs`
(`OperationType`): positions and lengths are byte offsets/counts, content
is the byte sequence of the string. -/
inductive OperationType where
  | insert (position : Nat) (content : List Nat)
  | delete (position : Nat) (length : Nat)
  | replace (position : Nat) (oldContent newContent : List Nat)
deriving DecidableEq, Repr

/-- `DocumentOperation` of `models/collaboration.rs`. -/
structure DocumentOperation where
  id : String
  version : Nat
  timestamp : Int
  userId : Nat
  operation : OperationType
deriving DecidableEq, Repr

/-- Lexicographic `≤` on character lists by code point: for the ASCII
token and id strings of this development it agrees with Rust's
byte-lexicographic `Ord` on `String`. -/
def charListLe : List Char → List Char → Bool
  | [], _ => true
  | _ :: _, [] => false
  | c :: cs, d :: ds =>
    if c.toNat < d.toNat then true
    else if d.toNat < c.toNat then false
    else charListLe cs ds

/-- Lexicographic `<` on character lists by code point. -/
def charListLt : List Char → List Char → Bool
  | _, [] => false
  | [], _ :: _ => true
  | c :: cs, d :: ds =>
    if c.toNat < d.toNat then true
    else if d.toNat < c.toNat then false
    else charListLt cs ds

/-- Rust's `String` `Ord::le`. -/
def strLe (a b : String) : Bool := charListLe a.data b.data

/-- Rust's `String` `Ord::lt` (the `base_op.id < other_op.id`
tie-break). -/
def strLt (a b : String) : Bool := charListLt a.data b.data

/-- Rust `str::is_char_boundary` on the byte sequence: index 0 is a
boundary, the end is a boundary, and otherwise the byte at the index must
not be a UTF-8 continuation byte (`(b as i8) >= -0x40`). -/
def isCharBoundary (s : List Nat) (i : Nat) : Bool :=
  if i = 0 then true
  else
    match s.get? i with
    | none => i = s.length
    | some b => b < 128 || 192 ≤ b

namespace OTEngine

/-- `OTEngine::transform_against` of `services/ot_engine.rs` lines 27-175,
translated arm by arm.  Note that in the Insert/Insert arm the code adds
`base_content.len()` — the length of the base op's own content — when the
other insert is at a smaller (or tied, losing the id tie-break) position. -/
def transformAgainst (baseOp otherOp : DocumentOperation) : DocumentOperation :=
  match baseOp.operation, otherOp.operation with
  | OperationType.insert basePos baseContent, OperationType.insert otherPos _ =>
    let newPos :=
      if otherPos < basePos then basePos + baseContent.length
      else if otherPos = basePos then
        if strLt baseOp.id otherOp.id then basePos else basePos + baseContent.length
      else basePos
    { baseOp with operation := OperationType.insert newPos baseContent }
  | OperationType.insert basePos baseContent, OperationType.delete delPos delLen =>
    let newPos :=
      if delPos < basePos && delPos + delLen > basePos then delPos
      else if delPos < basePos then basePos - delLen
      else basePos
    { baseOp with operation := OperationType.insert newPos baseContent }
  | OperationType.delete basePos baseLen, OperationType.insert insPos insContent =>
    if insPos < basePos then
      { baseOp with operation := OperationType.delete (basePos + insContent.length) baseLen }
    else if basePos ≤ insPos && insPos < basePos + baseLen then
      { baseOp with operation := OperationType.delete basePos (baseLen - 1) }
    else
      { baseOp with operation := OperationType.delete basePos baseLen }
  | OperationType.delete basePos baseLen, OperationType.delete otherPos otherLen =>
    let pl :=
      if otherPos < basePos then
        if otherPos + otherLen > basePos then
          let overlap := otherPos + otherLen - basePos
          (otherPos, baseLen - min overlap baseLen)
        else (basePos - otherLen, baseLen)
      else if basePos ≤ otherPos && otherPos < basePos + baseLen then
        let overlapEnd := min (basePos + baseLen) (otherPos + otherLen)
        (basePos, max (overlapEnd - basePos) (otherPos - basePos))
      else (basePos, baseLen)
    { baseOp with operation := OperationType.delete pl.1 pl.2 }
  | _, _ => baseOp

/-- `OTEngine::apply_operation` of `services/ot_engine.rs` lines 230-263:
positions are clamped with `.min(content.len())`, then the string is
rebuilt from byte slices.  Rust slicing panics when the clamped offset is
not a character boundary; a panic is `none`. -/
def applyOperation (content : List Nat) (op : DocumentOperation) : Option (List Nat) :=
  match op.operation with
  | OperationType.insert position text =>
    let pos := min position content.length
    if isCharBoundary content pos then
      some (content.take pos ++ text ++ content.drop pos)
    else none
  | OperationType.delete position length =>
    let start := min position content.length
    let stop := min (start + length) content.length
    if isCharBoundary content start && isCharBoundary content stop then
      some (content.take start ++ content.drop stop)
    else none
  | OperationType.replace position _ text =>
    let pos := min position content.length
    if isCharBoundary content pos then
      some (content.take pos ++ text ++ content.drop pos)
    else none

end OTEngine

/-- Any in-range index into an all-ASCII byte sequence is a character
boundary. -/
theorem isCharBoundary_of_ascii (s : List Nat) (i : Nat)
    (h : ∀ b ∈ s, b < 128) (hi : i ≤ s.length) : isCharBoundary s i = true := by
  unfold isCharBoundary
  by_cases h0 : i = 0
  · simp [h0]
  · simp only [h0, if_false]
    cases hg : s.get? i with
    | none =>
      have hlen := List.get?_eq_none.mp hg
      simp [Nat.le_antisymm hi hlen]
    | some b =>
      have hb : b ∈ s := List.get?_mem hg
      have := h b hb
      simp [this]

/-- C1: TP1 convergence fails on the code.  With S = "ab", a = Insert(2,"X")
(id "a") and b = Insert(1,"YY") (id "b"), applying a then the transform of b
against a gives "aYYbX", while applying b then the transform of a against b
gives "aYYXb": the Insert/Insert arm shifts by the base op's own content
length instead of the other op's, so the two orders diverge. -/
theorem tp1_convergence_fails :
    (OTEngine.applyOperation [97, 98]
        ⟨"a", 0, 0, 1, OperationType.insert 2 [88]⟩).bind
      (fun s => OTEngine.applyOperation s
        (OTEngine.transformAgainst ⟨"b", 0, 0, 2, OperationType.insert 1 [89, 89]⟩
          ⟨"a", 0, 0, 1, OperationType.insert 2 [88]⟩)) = some [97, 89, 89, 98, 88] ∧
    (OTEngine.applyOperation [97, 98]
        ⟨"b", 0, 0, 2, OperationType.insert 1 [89, 89]⟩).bind
      (fun s => OTEngine.applyOperation s
        (OTEngine.transformAgainst ⟨"a", 0, 0, 1, OperationType.insert 2 [88]⟩
          ⟨"b", 0, 0, 2, OperationType.insert 1 [89, 89]⟩)) = some [97, 89, 89, 88, 98] ∧
    some [97, 89, 89, 98, 88] ≠ some [97, 89, 89, 88, 98] := by
  refine ⟨by decide, by decide, by decide⟩

/-- C5: the Insert-vs-Insert transform shifts by the wrong length.  For
a = Insert(5,"xy") (id "a") and b = Insert(3,"z") (id "b"), the code moves a
to position 5 + len(a.content) = 7, where the spec's rule pa + len(b.content)
gives 6. -/
theorem insert_insert_wrong_shift :
    OTEngine.transformAgainst ⟨"a", 1, 0, 1, OperationType.insert 5 [120, 121]⟩
        ⟨"b", 1, 0, 2, OperationType.insert 3 [122]⟩ =
      ⟨"a", 1, 0, 1, OperationType.insert 7 [120, 121]⟩ ∧ (7 : Nat) ≠ 5 + 1 := by
  refine ⟨by decide, by decide⟩

/-- C9 counterexample: apply is not total.  On the two-byte content 0xC3 0xA9
(the UTF-8 encoding of "é"), Insert at byte offset 1 clamps to 1, which is
not a character boundary, and the Rust slice `&content[..1]` panics. -/
theorem apply_panics_mid_character :
    OTEngine.applyOperation [195, 169] ⟨"a", 0, 0, 1, OperationType.insert 1 [120]⟩ =
      none := by
  decide

/-- C9 amended: apply never fails when every byte of the content is ASCII
(each clamped offset is then a character boundary); clamping saturates
out-of-range positions and over-long delete ranges to the content length. -/
theorem apply_total_on_ascii (content : List Nat) (op : DocumentOperation)
    (h : ∀ b ∈ content, b < 128) :
    (OTEngine.applyOperation content op).isSome := by
  unfold OTEngine.applyOperation
  cases op.operation with
  | insert position text =>
    simp [isCharBoundary_of_ascii content _ h (Nat.min_le_right _ _)]
  | delete position length =>
    simp [isCharBoundary_of_ascii content _ h (Nat.min_le_right _ _)]
  | replace position oldContent text =>
    simp [isCharBoundary_of_ascii content _ h (Nat.min_le_right _ _)]

/-- C9 amended, witness: ASCII content "hi", an Insert far past the end is
clamped and applied. -/
theorem apply_total_on_ascii_witness :
    (OTEngine.applyOperation [104, 105] ⟨"a", 0, 0, 1, OperationType.insert 99 [33]⟩).isSome :=
  apply_total_on_ascii [104, 105] ⟨"a", 0, 0, 1, OperationType.insert 99 [33]⟩ (by decide)

/-- Per-participant cursor state of `services/collaboration.rs`
(`ParticipantState`). -/
structure ParticipantState where
  userId : Nat
  cursorPosition : Option Int
  selectionStart : Option Int
  selectionEnd : Option Int
deriving DecidableEq, Repr

/-- `SessionState` of `services/collaboration.rs`: participants keyed by
user id, the ordered op log, and the version counter. -/
structure SessionState where
  sessionId : Nat
  fileId : Nat
  participants : List (Nat × ParticipantState)
  operations : List DocumentOperation
  version : Nat
deriving DecidableEq, Repr

/-- The `active_sessions` map of `CollaborationManager`, session id to
state. -/
abbrev CollabSessions := List (Nat × SessionState)

namespace CollaborationManager

/-- `CollaborationManager::transform_against_single` of
`services/collaboration.rs` lines 213-314 (the session manager's own OT,
simpler than the engine's: no tie-break, no overlap trimming). -/
def transformAgainstSingle (baseOp concurrentOp : DocumentOperation) : DocumentOperation :=
  match baseOp.operation, concurrentOp.operation with
  | OperationType.insert basePos baseContent, OperationType.insert concPos _ =>
    let newPosition :=
      if concPos < basePos then basePos + baseContent.length else basePos
    { baseOp with operation := OperationType.insert newPosition baseContent }
  | OperationType.insert basePos baseContent, OperationType.delete delPos delLen =>
    let newPosition :=
      if delPos ≤ basePos then basePos - min delLen (basePos - delPos) else basePos
    { baseOp with operation := OperationType.insert newPosition baseContent }
  | OperationType.delete basePos baseLen, OperationType.insert insPos insContent =>
    let newPosition :=
      if insPos < basePos then basePos + insContent.length else basePos
    { baseOp with operation := OperationType.delete newPosition baseLen }
  | OperationType.delete basePos baseLen, OperationType.delete delPos delLen =>
    let newPosition :=
      if delPos < basePos then basePos - min delLen (basePos - delPos) else basePos
    { baseOp with operation := OperationType.delete newPosition baseLen }
  | _, _ => baseOp

/-- `CollaborationManager::transform_operation`: fold the single transform
over the concurrent ops in order. -/
def transformOperation (baseOp : DocumentOperation)
    (concurrentOps : List DocumentOperation) : DocumentOperation :=
  concurrentOps.foldl transformAgainstSingle baseOp

/-- In-place update of one session entry (`get_mut` on the dashmap). -/
def updateSession (mgr : CollabSessions) (sid : Nat) (s' : SessionState) :
    CollabSessions :=
  mgr.map (fun e => if e.1 = sid then (e.1, s') else e)

/-- `CollaborationManager::apply_operation` of `services/collaboration.rs`
lines 115-139 (the session manager's `submit`): select concurrent ops,
transform, append, bump the version.  Note there is no permission check and
the op's `version` field is never reassigned before the append. -/
def applyOperation (mgr : CollabSessions) (sid : Nat) (op : DocumentOperation) :
    Except String Nat × CollabSessions :=
  match List.lookup sid mgr with
  | none => (Except.error "Session not found", mgr)
  | some s =>
    let concurrentOps := s.operations.filter
      (fun o => op.version ≤ o.version && o.userId != op.userId)
    let op' := if concurrentOps.isEmpty then op else transformOperation op concurrentOps
    let s' := { s with operations := s.operations ++ [op'], version := s.version + 1 }
    (Except.ok s'.version, updateSession mgr sid s')

end CollaborationManager

/-- The single transform clones the op and only rewrites position/length, so
`version` and `user_id` survive. -/
theorem transformAgainstSingle_fields (b c : DocumentOperation) :
    (CollaborationManager.transformAgainstSingle b c).version = b.version ∧
      (CollaborationManager.transformAgainstSingle b c).userId = b.userId := by
  cases hb : b.operation <;> cases hc : c.operation <;>
    simp [CollaborationManager.transformAgainstSingle, hb, hc]

/-- Folding the single transform preserves `version` and `user_id`. -/
theorem transformOperation_fields (l : List DocumentOperation) :
    ∀ b : DocumentOperation,
      (CollaborationManager.transformOperation b l).version = b.version ∧
        (CollaborationManager.transformOperation b l).userId = b.userId := by
  induction l with
  | nil => intro b; exact ⟨rfl, rfl⟩
  | cons c cs ih =>
    intro b
    have h1 := transformAgainstSingle_fields b c
    have h2 := ih (CollaborationManager.transformAgainstSingle b c)
    simpa [CollaborationManager.transformOperation, List.foldl_cons, h1.1, h1.2]
      using h2

/-- C6 amended: a submit to an existing session appends one operation that
keeps the submitted op's `version` field (the code never reassigns it to
`session.version + 1`), while the session's version counter is incremented
by exactly 1 and returned as the new version. -/
theorem submit_increments_and_keeps_client_version
    (mgr : CollabSessions) (sid : Nat) (op : DocumentOperation) (s : SessionState)
    (h : List.lookup sid mgr = some s) :
    ∃ op' : DocumentOperation,
      CollaborationManager.applyOperation mgr sid op =
        (Except.ok (s.version + 1),
          CollaborationManager.updateSession mgr sid
            { s with operations := s.operations ++ [op'], version := s.version + 1 }) ∧
      op'.version = op.version ∧ op'.userId = op.userId := by
  refine ⟨?_, ?_, ?_⟩
  · exact
      (if (s.operations.filter
            (fun o => op.version ≤ o.version && o.userId != op.userId)).isEmpty
        then op
        else CollaborationManager.transformOperation op
          (s.operations.filter
            (fun o => op.version ≤ o.version && o.userId != op.userId)))
  · simp [CollaborationManager.applyOperation, h]
  · constructor
    · split
      · rfl
      · exact (transformOperation_fields _ op).1
    · split
      · rfl
      · exact (transformOperation_fields _ op).2

/-- C6 amended, witness: session at version 4 with an empty log; the submit
returns version 5 and appends the op unchanged. -/
theorem submit_increments_witness :
    ∃ op' : DocumentOperation,
      CollaborationManager.applyOperation [(1, ⟨1, 9, [], [], 4⟩)] 1
          ⟨"o1", 0, 0, 7, OperationType.insert 0 [120]⟩ =
        (Except.ok (4 + 1),
          CollaborationManager.updateSession [(1, ⟨1, 9, [], [], 4⟩)] 1
            { (⟨1, 9, [], [], 4⟩ : SessionState) with
                operations := ([] : List DocumentOperation) ++ [op'], version := 4 + 1 }) ∧
      op'.version = (⟨"o1", 0, 0, 7, OperationType.insert 0 [120]⟩ : DocumentOperation).version ∧
      op'.userId = (⟨"o1", 0, 0, 7, OperationType.insert 0 [120]⟩ : DocumentOperation).userId :=
  submit_increments_and_keeps_client_version [(1, ⟨1, 9, [], [], 4⟩)] 1
    ⟨"o1", 0, 0, 7, OperationType.insert 0 [120]⟩ ⟨1, 9, [], [], 4⟩ (by decide)

/-- C6 counterexample: the claim says the appended op carries
`session.version + 1`.  On a session at version 5 with an empty log, a
submit of an op with version 0 returns 6 but appends the op still carrying
version 0, not 6. -/
theorem submit_version_not_reassigned_counterexample :
    CollaborationManager.applyOperation [(1, ⟨1, 9, [], [], 5⟩)] 1
        ⟨"o1", 0, 0, 7, OperationType.insert 0 [120]⟩ =
      (Except.ok 6,
        [(1, ⟨1, 9, [], [⟨"o1", 0, 0, 7, OperationType.insert 0 [120]⟩], 6⟩)]) ∧
    (⟨"o1", 0, 0, 7, OperationType.insert 0 [120]⟩ : DocumentOperation).version = 0 ∧
    (0 : Nat) ≠ 5 + 1 := by
  refine ⟨rfl, rfl, by decide⟩

/-- A row of `team_members`/`project_members`: who holds which role and
permission tokens on which resource (`models/collaboration.rs`). -/
structure MemberRow where
  resourceId : Nat
  userId : Nat
  role : String
  permissions : List String
deriving DecidableEq, Repr

/-- A row of `team_hierarchy`/`project_hierarchy`
(`models/inheritance.rs`): the parent id is nullable. -/
structure HierarchyEdge where
  parentId : Option Nat
  childId : Nat
  inheritanceEnabled : Bool
deriving DecidableEq, Repr

/-- The database tables the inheritance engine reads. -/
structure Store where
  teamMembers : List MemberRow
  projectMembers : List MemberRow
  teamHierarchy : List HierarchyEdge
  projectHierarchy : List HierarchyEdge
deriving DecidableEq, Repr

/-- `InheritanceConfig` of `models/inheritance.rs`. -/
structure InheritanceConfig where
  enabled : Bool
  maxDepth : Int
  cascadingUpdates : Bool
  overrideAllowed : Bool
deriving DecidableEq, Repr

/-- The `Default` impl: enabled, `max_depth = 5`. -/
def InheritanceConfig.default : InheritanceConfig := ⟨true, 5, true, true⟩

/-- `InheritedPermissionInfo` of `models/inheritance.rs`. -/
structure InheritedPermissionInfo where
  sourceId : Nat
  sourceType : String
  permissions : List String
  depth : Int
  fromRole : String
deriving DecidableEq, Repr

/-- `ResolvedPermissions` of `models/inheritance.rs`. -/
structure ResolvedPermissions where
  userId : Nat
  resourceId : Nat
  resourceType : String
  directPermissions : List String
  inheritedPermissions : List InheritedPermissionInfo
  effectivePermissions : List String
  role : String
deriving DecidableEq, Repr

/-- `HierarchyTree` of `models/inheritance.rs`. -/
structure HierarchyTree where
  id : Nat
  name : String
  resourceType : String
  children : List HierarchyTree
  permissionsInherited : Bool

/-- The permission cache of `InheritanceEngine`, keyed by
`(user_id, resource_id)` — the resource type is not part of the key. -/
abbrev PermissionCache := List ((Nat × Nat) × ResolvedPermissions)

namespace InheritanceEngine

/-- Table selection by resource type (`team_members` / `project_members`). -/
def membersOf (st : Store) (resourceType : String) : List MemberRow :=
  if resourceType = "team" then st.teamMembers
  else if resourceType = "project" then st.projectMembers
  else []

/-- Table selection by resource type (`team_hierarchy` /
`project_hierarchy`). -/
def edgesOf (st : Store) (resourceType : String) : List HierarchyEdge :=
  if resourceType = "team" then st.teamHierarchy
  else if resourceType = "project" then st.projectHierarchy
  else []

/-- The type strings every engine query accepts; anything else is the
`"Invalid resource type"` error. -/
def validType (resourceType : String) : Bool :=
  resourceType = "team" || resourceType = "project"

/-- `InheritanceEngine::get_direct_permissions`: the permission tokens of
the member row for `(resource, user)`, empty when no row matches. -/
def getDirectPermissions (st : Store) (userId resourceId : Nat)
    (resourceType : String) : Except String (List String) :=
  if validType resourceType then
    Except.ok
      (match (membersOf st resourceType).find?
          (fun row => row.resourceId = resourceId && row.userId = userId) with
        | some row => row.permissions
        | none => [])
  else Except.error "Invalid resource type"

/-- `InheritanceEngine::get_user_role`: the role of the member row for
`(resource, user)`, defaulting to `"viewer"` when no row matches. -/
def getUserRole (st : Store) (userId resourceId : Nat)
    (resourceType : String) : Except String String :=
  if validType resourceType then
    Except.ok
      (match (membersOf st resourceType).find?
          (fun row => row.resourceId = resourceId && row.userId = userId) with
        | some row => row.role
        | none => "viewer")
  else Except.error "Invalid resource type"

/-- `InheritanceEngine::get_parents`: parents of a node over edges with
`inheritance_enabled = TRUE`, null parents skipped. -/
def getParents (st : Store) (resourceId : Nat) (resourceType : String) :
    Except String (List Nat) :=
  if validType resourceType then
    Except.ok
      (((edgesOf st resourceType).filter
          (fun e => e.childId = resourceId && e.inheritanceEnabled)).filterMap
        HierarchyEdge.parentId)
  else Except.error "Invalid resource type"

/-- `InheritanceEngine::get_children`: children of a node over edges with
`inheritance_enabled = TRUE`. -/
def getChildren (st : Store) (resourceId : Nat) (resourceType : String) :
    Except String (List Nat) :=
  if validType resourceType then
    Except.ok
      (((edgesOf st resourceType).filter
          (fun e => e.parentId = some resourceId && e.inheritanceEnabled)).map
        HierarchyEdge.childId)
  else Except.error "Invalid resource type"

/-- The body of the `for parent_id in parents` loop inside
`get_inherited_permissions`: parents with a non-empty grant contribute an
`InheritedPermissionInfo` at `depth + 1` and, when `depth < max_depth`, are
pushed onto the traversal stack. -/
def processParents (st : Store) (userId : Nat) (resourceType : String)
    (depth maxDepth : Int) :
    List Nat → List InheritedPermissionInfo → List (Nat × Int) →
      Except String (List InheritedPermissionInfo × List (Nat × Int))
  | [], inherited, toProcess => Except.ok (inherited, toProcess)
  | parentId :: rest, inherited, toProcess =>
    match getDirectPermissions st userId parentId resourceType with
    | Except.error e => Except.error e
    | Except.ok parentPerms =>
      if parentPerms.isEmpty then
        processParents st userId resourceType depth maxDepth rest inherited toProcess
      else
        match getUserRole st userId parentId resourceType with
        | Except.error e => Except.error e
        | Except.ok role =>
          processParents st userId resourceType depth maxDepth rest
            (inherited ++ [⟨parentId, resourceType, parentPerms, depth + 1, role⟩])
            (if depth < maxDepth then (parentId, depth + 1) :: toProcess else toProcess)

/-- The `while let Some((current_id, depth)) = to_process.pop()` loop of
`InheritanceEngine::get_inherited_permissions` lines 133-167, with an
explicit fuel: `none` means the fuel ran out before the loop finished.  A
popped node is skipped when its depth exceeds `max_depth` or it was already
processed; otherwise it is marked processed and its parents are examined. -/
def inheritLoop (st : Store) (cfg : InheritanceConfig) (userId : Nat)
    (resourceType : String) :
    Nat → List (Nat × Int) → Finset Nat → List InheritedPermissionInfo →
      Option (Except String (List InheritedPermissionInfo))
  | _, [], _, inherited => some (Except.ok inherited)
  | 0, _ :: _, _, _ => none
  | fuel + 1, (currentId, depth) :: rest, processed, inherited =>
    if depth > cfg.maxDepth ∨ currentId ∈ processed then
      inheritLoop st cfg userId resourceType fuel rest processed inherited
    else
      match getParents st currentId resourceType with
      | Except.error e => some (Except.error e)
      | Except.ok parents =>
        match processParents st userId resourceType depth cfg.maxDepth parents
            inherited rest with
        | Except.error e => some (Except.error e)
        | Except.ok (inherited', toProcess') =>
          inheritLoop st cfg userId resourceType fuel toProcess'
            (insert currentId processed) inherited'

/-- Every node the traversal can ever push: the non-null parents of the
edge table. -/
def parentsUniv (st : Store) (resourceType : String) : Finset Nat :=
  ((edgesOf st resourceType).filterMap HierarchyEdge.parentId).toFinset

/-- Fuel that provably outlasts the loop (proved below): one more than the
initial value of the decreasing measure
`|univ \ processed| * (|edges| + 1) + |stack|`. -/
def fuelBound (st : Store) (resourceType : String) (resourceId : Nat) : Nat :=
  (insert resourceId (parentsUniv st resourceType)).card *
      ((edgesOf st resourceType).length + 1) + 2

/-- `InheritanceEngine::get_inherited_permissions` lines 119-170: returns
`Ok(vec![])` when inheritance is disabled, otherwise runs the traversal
from `(resource_id, 0)` with an empty visited set. -/
def getInheritedPermissions (st : Store) (cfg : InheritanceConfig)
    (userId resourceId : Nat) (resourceType : String) :
    Option (Except String (List InheritedPermissionInfo)) :=
  if cfg.enabled = false then some (Except.ok [])
  else
    inheritLoop st cfg userId resourceType (fuelBound st resourceType resourceId)
      [(resourceId, 0)] ∅ []

/-- `merged.contains(perm)` guard before pushing, from
`merge_permissions`. -/
def addUnique (merged : List String) (perm : String) : List String :=
  if perm ∈ merged then merged else merged ++ [perm]

/-- One insertion step of the sort that models `Vec::sort` on strings. -/
def strInsert (x : String) : List String → List String
  | [] => [x]
  | y :: ys => if strLe x y then x :: y :: ys else y :: strInsert x ys

/-- `merged.sort()`: stable lexicographic insertion sort. -/
def sortStrings : List String → List String
  | [] => []
  | x :: xs => strInsert x (sortStrings xs)

/-- `merged.dedup()`: drop consecutive duplicates. -/
def dedupAdjacent : List String → List String
  | [] => []
  | [x] => [x]
  | x :: y :: rest =>
    if x = y then dedupAdjacent (y :: rest) else x :: dedupAdjacent (y :: rest)

/-- `InheritanceEngine::merge_permissions` lines 256-273: start from the
direct tokens, append unseen inherited tokens, then sort and dedup. -/
def mergePermissions (direct : List String)
    (inherited : List InheritedPermissionInfo) : List String :=
  dedupAdjacent
    (sortStrings
      (inherited.foldl (fun merged info => info.permissions.foldl addUnique merged)
        direct))

/-- `InheritanceEngine::resolve_permissions` lines 25-71: cache lookup on
`(user_id, resource_id)` first (a hit returns the clone untouched), then
direct fetch, traversal, merge, role, and a cache insert. -/
def resolvePermissions (st : Store) (cfg : InheritanceConfig)
    (cache : PermissionCache) (userId resourceId : Nat) (resourceType : String) :
    Option (Except String (ResolvedPermissions × PermissionCache)) :=
  match List.lookup (userId, resourceId) cache with
  | some cached => some (Except.ok (cached, cache))
  | none =>
    match getDirectPermissions st userId resourceId resourceType with
    | Except.error e => some (Except.error e)
    | Except.ok directPerms =>
      match getInheritedPermissions st cfg userId resourceId resourceType with
      | none => none
      | some (Except.error e) => some (Except.error e)
      | some (Except.ok inheritedPerms) =>
        match getUserRole st userId resourceId resourceType with
        | Except.error e => some (Except.error e)
        | Except.ok role =>
          let resolved : ResolvedPermissions :=
            ⟨userId, resourceId, resourceType, directPerms, inheritedPerms,
              mergePermissions directPerms inheritedPerms, role⟩
          some (Except.ok (resolved, ((userId, resourceId), resolved) :: cache))

/-- `InheritanceEngine::clear_cache`. -/
def clearCache (_cache : PermissionCache) : PermissionCache := []

/-- `InheritanceEngine::clear_cache_for_resource`: remove the one
`(user_id, resource_id)` entry. -/
def clearCacheForResource (userId resourceId : Nat) (cache : PermissionCache) :
    PermissionCache :=
  cache.filter (fun e => e.1 != (userId, resourceId))

/-- `InheritanceEngine::has_permission`: resolve, then membership in the
effective set. -/
def hasPermission (st : Store) (cfg : InheritanceConfig) (cache : PermissionCache)
    (userId resourceId : Nat) (resourceType permission : String) :
    Option (Except String Bool) :=
  match resolvePermissions st cfg cache userId resourceId resourceType with
  | none => none
  | some (Except.error e) => some (Except.error e)
  | some (Except.ok (resolved, _)) =>
    some (Except.ok (permission ∈ resolved.effectivePermissions))

/-- The recursive descent of `build_hierarchy_tree` over a list of
children, with fuel modelling the recursion depth: the Rust function has no
depth bound and no visited set, so on a cyclic hierarchy no fuel ever
suffices (`none`). -/
def buildForestF (st : Store) (resourceType : String) :
    Nat → List Nat → Option (Except String (List HierarchyTree))
  | _, [] => some (Except.ok [])
  | 0, _ :: _ => none
  | fuel + 1, childId :: rest =>
    match getChildren st childId resourceType with
    | Except.error e => some (Except.error e)
    | Except.ok grandchildren =>
      match buildForestF st resourceType fuel grandchildren with
      | none => none
      | some (Except.error e) => some (Except.error e)
      | some (Except.ok sub) =>
        match buildForestF st resourceType fuel rest with
        | none => none
        | some (Except.error e) => some (Except.error e)
        | some (Except.ok siblings) =>
          some (Except.ok
            (⟨childId, "child", resourceType, sub, !sub.isEmpty⟩ :: siblings))

/-- `InheritanceEngine::build_hierarchy_tree` lines 276-301: fetch the
children, recurse on each (name `"child"`), and mark
`permissions_inherited` iff the children list is non-empty. -/
def buildHierarchyTree (st : Store) (fuel : Nat) (resourceId : Nat)
    (resourceType name : String) : Option (Except String HierarchyTree) :=
  match getChildren st resourceId resourceType with
  | Except.error e => some (Except.error e)
  | Except.ok children =>
    match buildForestF st resourceType fuel children with
    | none => none
    | some (Except.error e) => some (Except.error e)
    | some (Except.ok sub) =>
      some (Except.ok ⟨resourceId, name, resourceType, sub, !sub.isEmpty⟩)

end InheritanceEngine

/-- A store with no member rows and no hierarchy rows. -/
def emptyStore : Store := ⟨[], [], [], []⟩

/-- Scenario S3: project 0 has inheritance-enabled parent project 1; user
100 has no row on 0 and a `member` row with tokens read/write on 1. -/
def childStore : Store :=
  ⟨[], [⟨1, 100, "member", ["read", "write"]⟩], [], [⟨some 1, 0, true⟩]⟩

/-- What `resolve_permissions(100, 0, "project")` computes on
`childStore`: effective tokens read/write from the inherited contribution,
but role `"viewer"` because only the direct row is consulted for the
role. -/
def childResolved : ResolvedPermissions :=
  ⟨100, 0, "project", [],
    [⟨1, "project", ["read", "write"], 1, "member"⟩], ["read", "write"], "viewer"⟩

/-- Scenario S4: the chain P0 ← P1 ← … ← P6 of inheritance-enabled project
edges, with a `read` grant for user 100 only on P6. -/
def chainStore : Store :=
  ⟨[], [⟨6, 100, "member", ["read"]⟩], [],
    [⟨some 1, 0, true⟩, ⟨some 2, 1, true⟩, ⟨some 3, 2, true⟩, ⟨some 4, 3, true⟩,
      ⟨some 5, 4, true⟩, ⟨some 6, 5, true⟩]⟩

/-- A project hierarchy containing a cycle (0 → 1 → 3 → 0 along parent
edges) in which node 3 is the parent of both 1 and 2; user 100 holds grants
on 1, 2 and 3. -/
def diamondStore : Store :=
  ⟨[],
    [⟨1, 100, "member", ["read"]⟩, ⟨2, 100, "member", ["read"]⟩,
      ⟨3, 100, "member", ["read"]⟩],
    [],
    [⟨some 1, 0, true⟩, ⟨some 2, 0, true⟩, ⟨some 3, 1, true⟩, ⟨some 3, 2, true⟩,
      ⟨some 0, 3, true⟩]⟩

/-- Scenario S5: team nodes A = 1 and B = 2 with edges A→B and B→A, a
two-node cycle. -/
def cycStore : Store := ⟨[], [], [⟨some 1, 2, true⟩, ⟨some 2, 1, true⟩], []⟩

/-- In the cyclic team hierarchy, no recursion depth completes the descent
from either node: the forest builder exhausts any fuel. -/
theorem buildForest_cycle_none (n : Nat) :
    InheritanceEngine.buildForestF cycStore "team" n [1] = none ∧
      InheritanceEngine.buildForestF cycStore "team" n [2] = none := by
  have hc1 : InheritanceEngine.getChildren cycStore 1 "team" = Except.ok [2] := rfl
  have hc2 : InheritanceEngine.getChildren cycStore 2 "team" = Except.ok [1] := rfl
  induction n with
  | zero => exact ⟨rfl, rfl⟩
  | succ n ih =>
    constructor
    · simp only [InheritanceEngine.buildForestF, hc1, ih.2]
    · simp only [InheritanceEngine.buildForestF, hc2, ih.1]

/-- C7: `build_hierarchy_tree` does not terminate on a cyclic hierarchy.
On team nodes 1 and 2 with edges both ways, the recursion has no depth
bound and no visited set, so for every fuel the descent runs out (`none`):
the Rust function recurses forever. -/
theorem build_tree_diverges_on_cycle (fuel : Nat) :
    InheritanceEngine.buildHierarchyTree cycStore fuel 1 "team" "A" = none := by
  have hc1 : InheritanceEngine.getChildren cycStore 1 "team" = Except.ok [2] := rfl
  simp only [InheritanceEngine.buildHierarchyTree, hc1,
    (buildForest_cycle_none fuel).2]

/-- C2: there is no authorisation gate in front of submit.  User 7 holds no
permission at all (`has_permission` on the empty store answers `false` for
`write` on project 42), yet `apply_operation` on a session for that project
accepts the op, appends it and bumps the version to 1 instead of returning
`Forbidden` and leaving the state unchanged. -/
theorem submit_without_write_permission_succeeds :
    InheritanceEngine.hasPermission emptyStore InheritanceConfig.default [] 7 42
        "project" "write" = some (Except.ok false) ∧
    CollaborationManager.applyOperation [(5, ⟨5, 9, [], [], 0⟩)] 5
        ⟨"o1", 0, 0, 7, OperationType.insert 0 [120]⟩ =
      (Except.ok 1,
        [(5, ⟨5, 9, [], [⟨"o1", 0, 0, 7, OperationType.insert 0 [120]⟩], 1⟩)]) :=
  ⟨rfl, rfl⟩

/-- C3 amended: the `role` field of a freshly resolved result is determined
by `get_user_role` alone — the direct member row's role when one exists,
else `"viewer"` — and never by the inherited contributions. -/
theorem resolve_role_ignores_inherited
    (st : Store) (cfg : InheritanceConfig) (cache : PermissionCache)
    (userId resourceId : Nat) (resourceType : String)
    (res : ResolvedPermissions) (cache' : PermissionCache)
    (hmiss : List.lookup (userId, resourceId) cache = none)
    (hres : InheritanceEngine.resolvePermissions st cfg cache userId resourceId
        resourceType = some (Except.ok (res, cache'))) :
    InheritanceEngine.getUserRole st userId resourceId resourceType =
      Except.ok res.role := by
  unfold InheritanceEngine.resolvePermissions at hres
  rw [hmiss] at hres
  cases hd : InheritanceEngine.getDirectPermissions st userId resourceId resourceType with
  | error e => rw [hd] at hres; simp at hres
  | ok directPerms =>
    rw [hd] at hres
    cases hi : InheritanceEngine.getInheritedPermissions st cfg userId resourceId
        resourceType with
    | none => rw [hi] at hres; simp at hres
    | some vi =>
      rw [hi] at hres
      cases vi with
      | error e => simp at hres
      | ok inheritedPerms =>
        cases hr : InheritanceEngine.getUserRole st userId resourceId resourceType with
        | error e => rw [hr] at hres; simp at hres
        | ok role =>
          rw [hr] at hres
          simp only [Option.some.injEq, Except.ok.injEq, Prod.mk.injEq] at hres
          have hr2 : res.role = role := by rw [← hres.1]
          rw [hr2]

/-- C3 amended, witness: on the S3 scenario the theorem pins the resolved
role to the direct-or-viewer answer, here `"viewer"`. -/
theorem resolve_role_ignores_inherited_witness :
    InheritanceEngine.getUserRole childStore 100 0 "project" =
      Except.ok childResolved.role :=
  resolve_role_ignores_inherited childStore InheritanceConfig.default [] 100 0
    "project" childResolved [((100, 0), childResolved)] rfl rfl

/-- C3 counterexample: in the S3 scenario the user's parent row has role
`member`, the effective tokens are read/write, yet the resolved role is
`"viewer"`, not the claimed `member`: the code never derives the role from
inherited contributions. -/
theorem inherited_role_not_used_counterexample :
    InheritanceEngine.resolvePermissions childStore InheritanceConfig.default []
        100 0 "project" = some (Except.ok (childResolved, [((100, 0), childResolved)])) ∧
    childResolved.role = "viewer" ∧
    childResolved.inheritedPermissions = [⟨1, "project", ["read", "write"], 1, "member"⟩] ∧
    childResolved.effectivePermissions = ["read", "write"] ∧
    "viewer" ≠ "member" :=
  ⟨rfl, rfl, rfl, rfl, by decide⟩

/-- Contributions added by one pass over a parents list all carry depth
`d + 1`. -/
theorem processParents_acc (st : Store) (u : Nat) (t : String) (d maxD : Int) :
    ∀ (ps : List Nat) (inherited : List InheritedPermissionInfo)
      (stk : List (Nat × Int)) (inh' : List InheritedPermissionInfo)
      (stk' : List (Nat × Int)),
      InheritanceEngine.processParents st u t d maxD ps inherited stk =
        Except.ok (inh', stk') →
      ∀ i ∈ inh', i ∈ inherited ∨ i.depth = d + 1 := by
  intro ps
  induction ps with
  | nil =>
    intro inherited stk inh' stk' h i hi
    simp only [InheritanceEngine.processParents, Except.ok.injEq, Prod.mk.injEq] at h
    rw [← h.1] at hi
    exact Or.inl hi
  | cons p rest ih =>
    intro inherited stk inh' stk' h i hi
    simp only [InheritanceEngine.processParents] at h
    cases hd : InheritanceEngine.getDirectPermissions st u p t with
    | error e => simp [hd] at h
    | ok perms =>
      simp only [hd] at h
      by_cases hemp : perms.isEmpty
      · rw [if_pos hemp] at h
        exact ih inherited stk inh' stk' h i hi
      · rw [if_neg hemp] at h
        cases hr : InheritanceEngine.getUserRole st u p t with
        | error e => simp [hr] at h
        | ok role =>
          simp only [hr] at h
          rcases ih _ _ inh' stk' h i hi with hmem | hdep
          · rcases List.mem_append.mp hmem with hold | hnew
            · exact Or.inl hold
            · right
              rw [List.mem_singleton.mp hnew]
          · exact Or.inr hdep

/-- Every contribution the traversal loop emits has depth at most
`max_depth + 1`: a node is only processed when its depth passes the
`depth > max_depth` guard, and it contributes at `depth + 1`. -/
theorem inheritLoop_depths (st : Store) (cfg : InheritanceConfig) (u : Nat)
    (t : String) :
    ∀ (fuel : Nat) (stack : List (Nat × Int)) (processed : Finset Nat)
      (inherited l : List InheritedPermissionInfo),
      (∀ i ∈ inherited, i.depth ≤ cfg.maxDepth + 1) →
      InheritanceEngine.inheritLoop st cfg u t fuel stack processed inherited =
        some (Except.ok l) →
      ∀ i ∈ l, i.depth ≤ cfg.maxDepth + 1 := by
  intro fuel
  induction fuel with
  | zero =>
    intro stack processed inherited l hinh hloop
    cases stack with
    | nil =>
      simp only [InheritanceEngine.inheritLoop, Option.some.injEq,
        Except.ok.injEq] at hloop
      rw [← hloop]
      exact hinh
    | cons hd tl =>
      simp [InheritanceEngine.inheritLoop] at hloop
  | succ n ih =>
    intro stack processed inherited l hinh hloop
    cases stack with
    | nil =>
      simp only [InheritanceEngine.inheritLoop, Option.some.injEq,
        Except.ok.injEq] at hloop
      rw [← hloop]
      exact hinh
    | cons hd tl =>
      obtain ⟨c, d⟩ := hd
      simp only [InheritanceEngine.inheritLoop] at hloop
      by_cases hskip : d > cfg.maxDepth ∨ c ∈ processed
      · rw [if_pos hskip] at hloop
        exact ih tl processed inherited l hinh hloop
      · rw [if_neg hskip] at hloop
        cases hp : InheritanceEngine.getParents st c t with
        | error e => simp [hp] at hloop
        | ok parents =>
          simp only [hp] at hloop
          cases hpp : InheritanceEngine.processParents st u t d cfg.maxDepth parents
              inherited tl with
          | error e => simp [hpp] at hloop
          | ok pr =>
            obtain ⟨inh', stk'⟩ := pr
            simp only [hpp] at hloop
            have hdle : d ≤ cfg.maxDepth := by
              push_neg at hskip
              exact hskip.1
            have hinh' : ∀ i ∈ inh', i.depth ≤ cfg.maxDepth + 1 := by
              intro i hi
              rcases processParents_acc st u t d cfg.maxDepth parents inherited tl
                  inh' stk' hpp i hi with hmem | hdep
              · exact hinh i hmem
              · rw [hdep]; omega
            exact ih stk' (insert c processed) inh' l hinh' hloop

/-- C4 counterexample: in the S4 chain the traversal never reaches P6 —
each parent is enqueued only when the user holds non-empty permissions on
it, and P1…P5 carry none — so with `max_depth = 6` the effective set is
empty, not `[read]`.  Moreover the depth bound `max_depth` itself is off by
one: with `max_depth = 0` a contribution of depth 1 is still emitted. -/
theorem depth_cap_counterexample :
    InheritanceEngine.resolvePermissions chainStore ⟨true, 6, true, true⟩ [] 100 0
        "project" =
      some (Except.ok
        (⟨100, 0, "project", [], [], [], "viewer"⟩,
          [((100, 0), ⟨100, 0, "project", [], [], [], "viewer"⟩)])) ∧
    ([] : List String) ≠ ["read"] ∧
    InheritanceEngine.getInheritedPermissions childStore ⟨true, 0, true, true⟩ 100 0
        "project" =
      some (Except.ok [⟨1, "project", ["read", "write"], 1, "member"⟩]) ∧
    ¬((1 : Int) ≤ 0) :=
  ⟨rfl, by decide, rfl, by decide⟩

/-- C4 amended: on the S4 chain with the grant only at P6, resolve yields
empty tokens for `max_depth = 5` and also for `max_depth = 6` (the
traversal only continues through parents on which the user holds non-empty
permissions); in general every inherited contribution has depth at most
`max_depth + 1` (the bound `max_depth` holds only up to this off-by-one:
a node passing the `depth > max_depth` guard contributes at
`depth + 1`). -/
theorem depth_cap_amended :
    InheritanceEngine.getInheritedPermissions chainStore ⟨true, 5, true, true⟩ 100 0
        "project" = some (Except.ok []) ∧
    InheritanceEngine.getInheritedPermissions chainStore ⟨true, 6, true, true⟩ 100 0
        "project" = some (Except.ok []) ∧
    ∀ (st : Store) (cfg : InheritanceConfig) (u r : Nat) (t : String)
      (l : List InheritedPermissionInfo),
      InheritanceEngine.getInheritedPermissions st cfg u r t = some (Except.ok l) →
      ∀ i ∈ l, i.depth ≤ cfg.maxDepth + 1 := by
  refine ⟨rfl, rfl, ?_⟩
  intro st cfg u r t l h i hi
  unfold InheritanceEngine.getInheritedPermissions at h
  by_cases hen : cfg.enabled = false
  · rw [if_pos hen] at h
    simp only [Option.some.injEq, Except.ok.injEq] at h
    rw [← h] at hi
    simp at hi
  · rw [if_neg hen] at h
    exact inheritLoop_depths st cfg u t _ _ _ _ l (by simp) h i hi

/-- C4 amended, witness: the depth bound applied to the S3 store's one
contribution, which sits at depth 1 ≤ 5 + 1. -/
theorem depth_cap_amended_witness :
    (⟨1, "project", ["read", "write"], 1, "member"⟩ : InheritedPermissionInfo).depth ≤
      (⟨true, 5, true, true⟩ : InheritanceConfig).maxDepth + 1 :=
  depth_cap_amended.2.2 childStore ⟨true, 5, true, true⟩ 100 0 "project"
    [⟨1, "project", ["read", "write"], 1, "member"⟩] rfl
    ⟨1, "project", ["read", "write"], 1, "member"⟩ (by simp)

/-- Every parent `get_parents` returns appears in the parent column of the
edge table. -/
theorem getParents_mem_univ (st : Store) (r : Nat) (t : String) (ps : List Nat)
    (h : InheritanceEngine.getParents st r t = Except.ok ps) :
    ∀ p ∈ ps, p ∈ InheritanceEngine.parentsUniv st t := by
  unfold InheritanceEngine.getParents at h
  split at h
  · simp only [Except.ok.injEq] at h
    intro p hp
    rw [← h] at hp
    unfold InheritanceEngine.parentsUniv
    rw [List.mem_toFinset]
    rcases List.mem_filterMap.mp hp with ⟨e, he, hpe⟩
    exact List.mem_filterMap.mpr ⟨e, List.mem_of_mem_filter he, hpe⟩
  · simp at h

/-- A parents list is no longer than the edge table. -/
theorem getParents_length (st : Store) (r : Nat) (t : String) (ps : List Nat)
    (h : InheritanceEngine.getParents st r t = Except.ok ps) :
    ps.length ≤ (InheritanceEngine.edgesOf st t).length := by
  unfold InheritanceEngine.getParents at h
  split at h
  · simp only [Except.ok.injEq] at h
    rw [← h]
    exact le_trans (List.length_filterMap_le _ _) (List.length_filter_le _ _)
  · simp at h

/-- One pass over a parents list only pushes nodes from that list, and
grows the stack by at most the list's length. -/
theorem processParents_stack (st : Store) (u : Nat) (t : String) (d maxD : Int) :
    ∀ (ps : List Nat) (inherited : List InheritedPermissionInfo)
      (stk : List (Nat × Int)) (inh' : List InheritedPermissionInfo)
      (stk' : List (Nat × Int)),
      InheritanceEngine.processParents st u t d maxD ps inherited stk =
        Except.ok (inh', stk') →
      (∀ x ∈ stk', x ∈ stk ∨ x.1 ∈ ps) ∧ stk'.length ≤ stk.length + ps.length := by
  intro ps
  induction ps with
  | nil =>
    intro inherited stk inh' stk' h
    simp only [InheritanceEngine.processParents, Except.ok.injEq, Prod.mk.injEq] at h
    rw [← h.2]
    exact ⟨fun x hx => Or.inl hx, by simp⟩
  | cons p rest ih =>
    intro inherited stk inh' stk' h
    simp only [InheritanceEngine.processParents] at h
    cases hd : InheritanceEngine.getDirectPermissions st u p t with
    | error e => simp [hd] at h
    | ok perms =>
      simp only [hd] at h
      by_cases hemp : perms.isEmpty
      · rw [if_pos hemp] at h
        obtain ⟨hmem, hlen⟩ := ih inherited stk inh' stk' h
        refine ⟨fun x hx => ?_, by simp only [List.length_cons]; omega⟩
        rcases hmem x hx with hm | hm
        · exact Or.inl hm
        · exact Or.inr (List.mem_cons_of_mem _ hm)
      · rw [if_neg hemp] at h
        cases hr : InheritanceEngine.getUserRole st u p t with
        | error e => simp [hr] at h
        | ok role =>
          simp only [hr] at h
          obtain ⟨hmem, hlen⟩ := ih _ _ inh' stk' h
          by_cases hlt : d < maxD
          · rw [if_pos hlt] at hmem hlen
            refine ⟨fun x hx => ?_, ?_⟩
            · rcases hmem x hx with hm | hm
              · rcases List.mem_cons.mp hm with he | hm2
                · right
                  rw [he]
                  exact List.mem_cons_self _ _
                · exact Or.inl hm2
              · exact Or.inr (List.mem_cons_of_mem _ hm)
            · simp only [List.length_cons] at hlen ⊢
              omega
          · rw [if_neg hlt] at hmem hlen
            refine ⟨fun x hx => ?_, by simp only [List.length_cons]; omega⟩
            rcases hmem x hx with hm | hm
            · exact Or.inl hm
            · exact Or.inr (List.mem_cons_of_mem _ hm)

/-- The traversal loop of `get_inherited_permissions` terminates: fuel
bounded by the decreasing measure
`|univ \ processed| * (|edges| + 1) + |stack|` suffices, because a skipped
node shortens the stack and a processed node strictly shrinks
`univ \ processed` while pushing at most `|edges|` parents. -/
theorem inheritLoop_term (st : Store) (cfg : InheritanceConfig) (u : Nat)
    (t : String) (U : Finset Nat)
    (hU : InheritanceEngine.parentsUniv st t ⊆ U) :
    ∀ (N : Nat) (stack : List (Nat × Int)) (processed : Finset Nat)
      (inherited : List InheritedPermissionInfo),
      (∀ x ∈ stack, x.1 ∈ U) →
      (U \ processed).card * ((InheritanceEngine.edgesOf st t).length + 1) +
          stack.length ≤ N →
      ∃ v, InheritanceEngine.inheritLoop st cfg u t N stack processed inherited =
        some v := by
  intro N
  induction N using Nat.strong_induction_on with
  | _ N ih =>
    intro stack processed inherited hstack hN
    cases stack with
    | nil =>
      refine ⟨Except.ok inherited, ?_⟩
      cases N <;> rfl
    | cons hd tl =>
      obtain ⟨c, d⟩ := hd
      cases N with
      | zero =>
        exfalso
        simp only [List.length_cons] at hN
        omega
      | succ M =>
        simp only [InheritanceEngine.inheritLoop]
        by_cases hskip : d > cfg.maxDepth ∨ c ∈ processed
        · rw [if_pos hskip]
          apply ih M (Nat.lt_succ_self M) tl processed inherited
          · intro x hx
            exact hstack x (List.mem_cons_of_mem _ hx)
          · simp only [List.length_cons] at hN
            generalize hA :
              (U \ processed).card *
                ((InheritanceEngine.edgesOf st t).length + 1) = A at hN ⊢
            omega
        · rw [if_neg hskip]
          push_neg at hskip
          obtain ⟨hdle, hcproc⟩ := hskip
          have hcU : c ∈ U := hstack (c, d) (List.mem_cons_self _ _)
          cases hp : InheritanceEngine.getParents st c t with
          | error e => exact ⟨Except.error e, by simp [hp]⟩
          | ok parents =>
            simp only [hp]
            cases hpp : InheritanceEngine.processParents st u t d cfg.maxDepth
                parents inherited tl with
            | error e => exact ⟨Except.error e, by simp [hpp]⟩
            | ok pr =>
              obtain ⟨inh', stk'⟩ := pr
              simp only [hpp]
              have hps := processParents_stack st u t d cfg.maxDepth parents
                inherited tl inh' stk' hpp
              have hstk' : ∀ x ∈ stk', x.1 ∈ U := by
                intro x hx
                rcases hps.1 x hx with hmem | hpar
                · exact hstack x (List.mem_cons_of_mem _ hmem)
                · exact hU (getParents_mem_univ st c t parents hp x.1 hpar)
              have hplen := getParents_length st c t parents hp
              have hcin : c ∈ U \ processed := Finset.mem_sdiff.mpr ⟨hcU, hcproc⟩
              have hcard : (U \ insert c processed).card = (U \ processed).card - 1 := by
                rw [Finset.sdiff_insert]
                exact Finset.card_erase_of_mem hcin
              have hcardpos : 1 ≤ (U \ processed).card := Finset.card_pos.mpr ⟨c, hcin⟩
              apply ih M (Nat.lt_succ_self M) stk' (insert c processed) inh' hstk'
              have hKQ : (U \ processed).card = (U \ insert c processed).card + 1 := by
                omega
              have hexp :
                  (U \ processed).card *
                      ((InheritanceEngine.edgesOf st t).length + 1) =
                    (U \ insert c processed).card *
                        ((InheritanceEngine.edgesOf st t).length + 1) +
                      ((InheritanceEngine.edgesOf st t).length + 1) := by
                rw [hKQ]
                ring
              simp only [List.length_cons] at hN
              generalize hA :
                (U \ insert c processed).card *
                  ((InheritanceEngine.edgesOf st t).length + 1) = A at hexp ⊢
              generalize hB :
                (U \ processed).card *
                  ((InheritanceEngine.edgesOf st t).length + 1) = B at hexp hN
              omega

/-- C8 amended: `resolve_permissions` terminates on every hierarchy,
cyclic ones included — the visited set stops revisits, so the explicit
fuel `fuelBound` always suffices and the model never answers `none`. -/
theorem resolve_terminates_on_any_hierarchy (st : Store) (cfg : InheritanceConfig)
    (cache : PermissionCache) (u r : Nat) (t : String) :
    ∃ v, InheritanceEngine.resolvePermissions st cfg cache u r t = some v := by
  unfold InheritanceEngine.resolvePermissions
  cases hl : List.lookup (u, r) cache with
  | some cached => exact ⟨_, rfl⟩
  | none =>
    cases hd : InheritanceEngine.getDirectPermissions st u r t with
    | error e => exact ⟨_, rfl⟩
    | ok direct =>
      have hinh : ∃ vi,
          InheritanceEngine.getInheritedPermissions st cfg u r t = some vi := by
        unfold InheritanceEngine.getInheritedPermissions
        by_cases hen : cfg.enabled = false
        · rw [if_pos hen]
          exact ⟨_, rfl⟩
        · rw [if_neg hen]
          apply inheritLoop_term st cfg u t
            (insert r (InheritanceEngine.parentsUniv st t))
            (Finset.subset_insert _ _)
          · intro x hx
            rw [List.mem_singleton.mp hx]
            exact Finset.mem_insert_self r _
          · unfold InheritanceEngine.fuelBound
            rw [Finset.sdiff_empty]
            simp only [List.length_singleton]
            omega
      obtain ⟨vi, hvi⟩ := hinh
      rw [hvi]
      cases vi with
      | error e => exact ⟨_, rfl⟩
      | ok inheritedPerms =>
        cases hr : InheritanceEngine.getUserRole st u r t with
        | error e => exact ⟨_, rfl⟩
        | ok role => exact ⟨_, rfl⟩

/-- C8 counterexample: `diamondStore` is a hierarchy with an accidental
cycle (parent edges 0 → 1 → 3 → 0, exhibited by the three `get_parents`
answers) in which node 3 is also the parent of node 2.  The traversal
terminates, but both node 1 and node 2 report parent 3, so source 3 is
counted twice in the contributions list. -/
theorem duplicate_source_counterexample :
    InheritanceEngine.getParents diamondStore 0 "project" = Except.ok [1, 2] ∧
    InheritanceEngine.getParents diamondStore 1 "project" = Except.ok [3] ∧
    InheritanceEngine.getParents diamondStore 3 "project" = Except.ok [0] ∧
    InheritanceEngine.getInheritedPermissions diamondStore InheritanceConfig.default
        100 0 "project" =
      some (Except.ok
        [⟨1, "project", ["read"], 1, "member"⟩, ⟨2, "project", ["read"], 1, "member"⟩,
          ⟨3, "project", ["read"], 2, "member"⟩,
          ⟨3, "project", ["read"], 2, "member"⟩]) ∧
    ([⟨1, "project", ["read"], 1, "member"⟩, ⟨2, "project", ["read"], 1, "member"⟩,
        ⟨3, "project", ["read"], 2, "member"⟩,
        ⟨3, "project", ["read"], 2,
          "member"⟩].map InheritedPermissionInfo.sourceId).count 3 = 2 :=
  ⟨rfl, rfl, rfl, rfl, by decide⟩

/-- Looking a key up after filtering out exactly that key finds nothing. -/
theorem lookup_filter_self (k : Nat × Nat) (l : PermissionCache) :
    List.lookup k (l.filter (fun e => e.1 != k)) = none := by
  induction l with
  | nil => rfl
  | cons a rest ih =>
    simp only [List.filter_cons]
    by_cases hk : a.1 = k
    · have h1 : (a.1 != k) = false := by simp [hk]
      rw [h1]
      exact ih
    · have h1 : (a.1 != k) = true := by simp [hk]
      rw [h1]
      obtain ⟨ak, av⟩ := a
      have h2 : (k == ak) = false :=
        beq_eq_false_iff_ne.mpr (Ne.symm (by simpa using hk))
      simp only [List.lookup, h2]
      exact ih

/-- C10: the cache key is `(user_id, resource_id)` alone.  A fresh resolve
for type `t1` caches a result whose `resource_type` is `t1`; afterwards a
resolve for the same user and resource returns that cached result for any
store, any config and any resource type — the store is never consulted —
until `clear_cache_for_resource` removes the entry. -/
theorem cache_key_ignores_resource_type
    (st : Store) (cfg : InheritanceConfig) (cache : PermissionCache)
    (u r : Nat) (t1 : String) (res : ResolvedPermissions) (cache' : PermissionCache)
    (hmiss : List.lookup (u, r) cache = none)
    (hres : InheritanceEngine.resolvePermissions st cfg cache u r t1 =
      some (Except.ok (res, cache'))) :
    res.resourceType = t1 ∧
    (∀ (st2 : Store) (cfg2 : InheritanceConfig) (t2 : String),
      InheritanceEngine.resolvePermissions st2 cfg2 cache' u r t2 =
        some (Except.ok (res, cache'))) ∧
    List.lookup (u, r) (InheritanceEngine.clearCacheForResource u r cache') =
      none := by
  unfold InheritanceEngine.resolvePermissions at hres
  rw [hmiss] at hres
  cases hd : InheritanceEngine.getDirectPermissions st u r t1 with
  | error e => simp [hd] at hres
  | ok directPerms =>
    simp only [hd] at hres
    cases hi : InheritanceEngine.getInheritedPermissions st cfg u r t1 with
    | none => simp [hi] at hres
    | some vi =>
      simp only [hi] at hres
      cases vi with
      | error e => simp at hres
      | ok inheritedPerms =>
        cases hr : InheritanceEngine.getUserRole st u r t1 with
        | error e => simp [hr] at hres
        | ok role =>
          simp only [hr, Option.some.injEq, Except.ok.injEq, Prod.mk.injEq] at hres
          obtain ⟨hres1, hres2⟩ := hres
          rw [hres1] at hres2
          refine ⟨by rw [← hres1], ?_, ?_⟩
          · intro st2 cfg2 t2
            unfold InheritanceEngine.resolvePermissions
            rw [← hres2]
            simp [List.lookup]
          · unfold InheritanceEngine.clearCacheForResource
            exact lookup_filter_self (u, r) cache'

/-- C10 witness: on the S3 scenario, after the first resolve for type
`"project"`, every later resolve for user 100 on resource 0 — any store,
any config, any type string — answers from the cache, and clearing the
`(100, 0)` entry empties it. -/
theorem cache_key_ignores_resource_type_witness :
    childResolved.resourceType = "project" ∧
    (∀ (st2 : Store) (cfg2 : InheritanceConfig) (t2 : String),
      InheritanceEngine.resolvePermissions st2 cfg2 [((100, 0), childResolved)]
          100 0 t2 = some (Except.ok (childResolved, [((100, 0), childResolved)]))) ∧
    List.lookup (100, 0)
        (InheritanceEngine.clearCacheForResource 100 0 [((100, 0), childResolved)]) =
      none :=
  cache_key_ignores_resource_type childStore InheritanceConfig.default [] 100 0
    "project" childResolved [((100, 0), childResolved)] rfl rfl
